import Mathlib

/-!
Verification development for the cets-imod CTF defocus-file converter.

The definitions below are a shallow embedding of the Python sources
`src/imod/converters/ctf.py` and `src/imod/utils/utils.py`.  Python floats
are modelled as exact rationals (ℚ); a defocus file is modelled as the list
of its lines, each line being the list of its whitespace-separated numeric
tokens.  Fallible Python code (raising exceptions) is modelled with
`Except Err`.
-/

attribute [local semireducible] Rat.mul Rat.add Rat.sub Rat.inv Rat.ofScientific

deriving instance DecidableEq for Except

/-- Error kinds raised by the converter (each corresponds to one `raise`
site in the source, plus Python runtime errors).  `indexError` models a
Python `IndexError` from out-of-range list indexing; `unpackMismatch`
models the `ValueError` raised when tuple unpacking arities disagree. -/
inductive Err where
  | unsupportedFlag (fl : ℤ)
  | columnCountMismatch (expected : ℕ)
  | lengthMismatch
  | countMismatch
  | indexError
  | unpackMismatch
  deriving DecidableEq, Repr

/-- Python list indexing `l[n]` for a nonnegative index: raises IndexError
when out of range. -/
def pyIdx {α : Type} (l : List α) (n : ℕ) : Except Err α :=
  match l.get? n with
  | some x => Except.ok x
  | none => Except.error Err.indexError

/-- Python `list.pop()`: removes (here: drops) the last element; raises
IndexError on an empty list. -/
def pyPop (l : List ℚ) : Except Err (List ℚ) :=
  if l = [] then Except.error Err.indexError else Except.ok l.dropLast

/-- Python `int(x)` on a float: truncation toward zero. -/
def ratTrunc (x : ℚ) : ℤ :=
  if 0 ≤ x then ⌊x⌋ else ⌈x⌉

/-- A per-parameter mapping from (1-based) tilt-image index to the ordered
list of raw estimates, modelling the Python dictionaries with
`dict.get(i, [])` lookup semantics (total, defaulting to `[]`). -/
abbrev Series : Type := ℤ → List ℚ

def emptySeries : Series := fun _ => []

/-- `ImodCtfSeries._append_to_dict` (ctf.py lines 313-317):
`dictionary.setdefault(index, []).append(value)`. -/
def appendToDict (d : Series) (i : ℤ) (v : ℚ) : Series :=
  fun j => if j = i then d j ++ [v] else d j

/-- Python `range(s, e + 1)` over integers. -/
def intRange (s e : ℤ) : List ℤ :=
  (List.range (e + 1 - s).toNat).map (fun (k : ℕ) => s + (k : ℤ))

/-- The inner `for index in range(start, end + 1)` loop, appending `v` to
the series at every index of the inclusive range. -/
def appendRange (d : Series) (s e : ℤ) (v : ℚ) : Series :=
  (intRange s e).foldl (fun d i => appendToDict d i v) d

/-- `ImodCtfSeries._get_defocus_file_flag` (ctf.py lines 215-240): flag 0
for a one-line file, flag 0 when line 1 has exactly 5 tokens, otherwise the
integer value of the first token of line 0.  An empty file hits
`lines[1]` and raises IndexError. -/
def get_defocus_file_flag (lines : List (List ℚ)) : Except Err ℤ :=
  match lines with
  | [] => Except.error Err.indexError
  | [_] => Except.ok 0
  | l0 :: l1 :: _ =>
    if l1.length = 5 then Except.ok 0
    else (pyIdx l0 0).bind fun t => Except.ok (ratTrunc t)

/-- `ImodCtfSeries._defocus_file_to_table` (ctf.py lines 277-311): keeps
every line as a table row, except that a genuine header first line is
dropped, and in the plain-estimation cases the first line loses its last
token (the estimation mode). -/
def defocus_file_to_table (lines : List (List ℚ)) : Except Err (List (List ℚ)) :=
  match lines with
  | [] => Except.ok []
  | [l0] => (pyPop l0).bind fun v => Except.ok [v]
  | l0 :: l1 :: rest =>
    if l1.length = 5 then (pyPop l0).bind fun v => Except.ok (v :: l1 :: rest)
    else Except.ok (l1 :: rest)

/-- Row-processing step of `_refactor_ctf_flag_0` (ctf.py lines 334-339). -/
def step0 (d : Series) (row : List ℚ) : Except Err Series :=
  (pyIdx row 0).bind fun c0 =>
  (pyIdx row 1).bind fun c1 =>
  (pyIdx row 4).bind fun c4 =>
  Except.ok (appendRange d (ratTrunc c0) (ratTrunc c1) (c4 * 10))

/-- Row-processing step of `_refactor_ctf_flag_1` (ctf.py lines 361-371). -/
def step1 (d : Series × Series × Series) (row : List ℚ) :
    Except Err (Series × Series × Series) :=
  (pyIdx row 0).bind fun c0 =>
  (pyIdx row 1).bind fun c1 =>
  (pyIdx row 4).bind fun c4 =>
  (pyIdx row 5).bind fun c5 =>
  (pyIdx row 6).bind fun c6 =>
  Except.ok (appendRange d.1 (ratTrunc c0) (ratTrunc c1) (c4 * 10),
             appendRange d.2.1 (ratTrunc c0) (ratTrunc c1) (c5 * 10),
             appendRange d.2.2 (ratTrunc c0) (ratTrunc c1) c6)

/-- Row-processing step of `_refactor_ctf_flag_4` (ctf.py lines 393-400). -/
def step4 (d : Series × Series) (row : List ℚ) : Except Err (Series × Series) :=
  (pyIdx row 0).bind fun c0 =>
  (pyIdx row 1).bind fun c1 =>
  (pyIdx row 4).bind fun c4 =>
  (pyIdx row 5).bind fun c5 =>
  Except.ok (appendRange d.1 (ratTrunc c0) (ratTrunc c1) (c4 * 10),
             appendRange d.2 (ratTrunc c0) (ratTrunc c1) c5)

/-- Row-processing step of `_refactor_ctf_flag_5` and
`_refactor_ctf_flag_37` (ctf.py lines 429-440 and 469-480); both read
columns 0, 1, 4, 5, 6, 7 (flag 37's column 8 is never read). -/
def step5 (d : Series × Series × Series × Series) (row : List ℚ) :
    Except Err (Series × Series × Series × Series) :=
  (pyIdx row 0).bind fun c0 =>
  (pyIdx row 1).bind fun c1 =>
  (pyIdx row 4).bind fun c4 =>
  (pyIdx row 5).bind fun c5 =>
  (pyIdx row 6).bind fun c6 =>
  (pyIdx row 7).bind fun c7 =>
  Except.ok (appendRange d.1 (ratTrunc c0) (ratTrunc c1) (c4 * 10),
             appendRange d.2.1 (ratTrunc c0) (ratTrunc c1) (c5 * 10),
             appendRange d.2.2.1 (ratTrunc c0) (ratTrunc c1) c6,
             appendRange d.2.2.2 (ratTrunc c0) (ratTrunc c1) c7)

/-- Error-propagating left fold, modelling a Python `for` loop whose body
may raise. -/
def foldE {σ α : Type} (f : σ → α → Except Err σ) (init : σ) :
    List α → Except Err σ
  | [] => Except.ok init
  | x :: xs =>
    match f init x with
    | Except.error e => Except.error e
    | Except.ok s => foldE f s xs

/-- `ImodCtfSeries._refactor_ctf_flag_0` (ctf.py lines 319-341): the column
count of the FIRST row only is validated against 5. -/
def refactor0 (table : List (List ℚ)) : Except Err Series :=
  (pyIdx table 0).bind fun h =>
  if h.length = 5 then foldE step0 emptySeries table
  else Except.error (Err.columnCountMismatch 5)

/-- `ImodCtfSeries._refactor_ctf_flag_1` (ctf.py lines 343-373). -/
def refactor1 (table : List (List ℚ)) : Except Err (Series × Series × Series) :=
  (pyIdx table 0).bind fun h =>
  if h.length = 7 then foldE step1 (emptySeries, emptySeries, emptySeries) table
  else Except.error (Err.columnCountMismatch 7)

/-- `ImodCtfSeries._refactor_ctf_flag_4` (ctf.py lines 375-402). -/
def refactor4 (table : List (List ℚ)) : Except Err (Series × Series) :=
  (pyIdx table 0).bind fun h =>
  if h.length = 6 then foldE step4 (emptySeries, emptySeries) table
  else Except.error (Err.columnCountMismatch 6)

/-- `ImodCtfSeries._refactor_ctf_flag_5` (ctf.py lines 404-442). -/
def refactor5 (table : List (List ℚ)) :
    Except Err (Series × Series × Series × Series) :=
  (pyIdx table 0).bind fun h =>
  if h.length = 8 then
    foldE step5 (emptySeries, emptySeries, emptySeries, emptySeries) table
  else Except.error (Err.columnCountMismatch 8)

/-- `ImodCtfSeries._refactor_ctf_flag_37` (ctf.py lines 444-487): identical
to flag 5 except the expected column count is 9 (column 8, the cut-on
frequency, is never read). -/
def refactor37 (table : List (List ℚ)) :
    Except Err (Series × Series × Series × Series) :=
  (pyIdx table 0).bind fun h =>
  if h.length = 9 then
    foldE step5 (emptySeries, emptySeries, emptySeries, emptySeries) table
  else Except.error (Err.columnCountMismatch 9)

/-- Middle-value computation on a single list, as inlined in the
single-defocus branch (ctf.py lines 162-170) and the phase-shift branch
(ctf.py lines 188-198): `m = trunc(len(l)/2)`; for even length average
`l[m]` and `l[m-1]`, for odd length take `l[m]`.  On an empty list the
even branch indexes positions 0 and -1, raising IndexError. -/
def middleValue (l : List ℚ) : Except Err ℚ :=
  let m := l.length / 2
  if l.length % 2 = 0 then
    (pyIdx l m).bind fun a =>
    (pyIdx l (m - 1)).bind fun b =>
    Except.ok ((a + b) / 2)
  else pyIdx l m

/-- Middle-value computation for the astigmatism branch (ctf.py lines
136-154): the midpoint and the parity test both come from the length of
the defocus_u list, and the same indices are used for all three lists. -/
def middleDefocus (u v a : List ℚ) : Except Err (ℚ × ℚ × ℚ) :=
  let m := u.length / 2
  if u.length % 2 = 0 then
    (pyIdx u m).bind fun u1 =>
    (pyIdx u (m - 1)).bind fun u0 =>
    (pyIdx v m).bind fun v1 =>
    (pyIdx v (m - 1)).bind fun v0 =>
    (pyIdx a m).bind fun a1 =>
    (pyIdx a (m - 1)).bind fun a0 =>
    Except.ok ((u1 + u0) / 2, (v1 + v0) / 2, (a1 + a0) / 2)
  else
    (pyIdx u m).bind fun x =>
    (pyIdx v m).bind fun y =>
    (pyIdx a m).bind fun z =>
    Except.ok (x, y, z)

/-- Defocus section of the per-image reduction (ctf.py lines 126-171).
When both the defocus_u and defocus_v lists are non-empty the sum of the
three lengths must be divisible by 3; otherwise the non-empty one of the
two (defocus_u preferred) is reduced alone, with defocus_v set equal to
defocus_u and the angle set to 0. -/
def reduceDefocus (u v a : List ℚ) : Except Err (ℚ × ℚ × ℚ) :=
  if u ≠ [] ∧ v ≠ [] then
    if (u.length + v.length + a.length) % 3 ≠ 0 then Except.error Err.lengthMismatch
    else middleDefocus u v a
  else
    let l := if u ≠ [] then u else v
    (middleValue l).bind fun x => Except.ok (x, x, 0)

/-- Phase-shift section of the per-image reduction (ctf.py lines 173-198):
phase_shift defaults to 0; a non-empty phase list requires
`len(defocus_u) + len(phase) + len(defocus_angle)` divisible by 3 and is
then reduced by the middle-value rule. -/
def reducePhase (u a p : List ℚ) : Except Err ℚ :=
  if p ≠ [] then
    if (u.length + p.length + a.length) % 3 ≠ 0 then Except.error Err.lengthMismatch
    else middleValue p
  else Except.ok 0

/-- `standarize_defocus` (utils.py lines 255-277): swap u and v and add
90 to the angle when v > u, then one wrap pass on the angle. -/
def standarize_defocus (defocus_u defocus_v defocus_angle : ℚ) : ℚ × ℚ × ℚ :=
  let s : ℚ × ℚ × ℚ :=
    if defocus_v > defocus_u then (defocus_v, defocus_u, defocus_angle + 90)
    else (defocus_u, defocus_v, defocus_angle)
  let a2 : ℚ := if s.2.2 ≥ 180 then s.2.2 - 180
    else if s.2.2 < 0 then s.2.2 + 180 else s.2.2
  (s.1, s.2.1, a2)

/-- The angle after the conditional swap step of `standarize_defocus`,
before the wrap pass. -/
def postSwapAngle (defocus_u defocus_v defocus_angle : ℚ) : ℚ :=
  if defocus_v > defocus_u then defocus_angle + 90 else defocus_angle

/-- Output record, modelling the external `cets_data_model` CTFMetadata
class as the spec documents it (defocus values in Å, angle in degrees,
`defocus_handedness` fixed at -1 by the model's default). -/
structure CTFMetadata where
  defocus_u : ℚ
  defocus_v : ℚ
  defocus_angle : ℚ
  phase_shift : ℚ
  defocus_handedness : ℤ
  deriving DecidableEq, Repr

/-- One iteration of the per-image loop of `_parse_defocus_file`
(ctf.py lines 117-210): defocus section, phase section, then
standardization. -/
def reduceImage (u v a p : List ℚ) : Except Err CTFMetadata :=
  (reduceDefocus u v a).bind fun d =>
  (reducePhase u a p).bind fun ps =>
  let s := standarize_defocus d.1 d.2.1 d.2.2
  Except.ok ⟨s.1, s.2.1, s.2.2, ps, -1⟩

/-- Error-propagating map, modelling the accumulation loop that appends
one CTFMetadata per image and aborts on the first exception. -/
def mapE {α β : Type} (f : α → Except Err β) : List α → Except Err (List β)
  | [] => Except.ok []
  | x :: xs =>
    match f x with
    | Except.error e => Except.error e
    | Except.ok y =>
      match mapE f xs with
      | Except.error e => Except.error e
      | Except.ok ys => Except.ok (y :: ys)

/-- The image indices `range(1, n_imgs + 1)` of the per-image loop. -/
def idxList (n : ℕ) : List ℤ :=
  (List.range n).map (fun (k : ℕ) => (k : ℤ) + 1)

/-- Flag dispatch of `_parse_defocus_file` (ctf.py lines 83-113) combined
with `_load_ctf_file` (ctf.py lines 242-275): reads the table and runs the
per-flag refactorer, filling absent parameters with empty series.  In the
flag-37 branch the source unpacks the 4-tuple returned by
`_refactor_ctf_flag_37` into 5 targets, so after a successful refactoring
it raises a ValueError (modelled by `unpackMismatch`). -/
def loadQuad (fl : ℤ) (lines : List (List ℚ)) :
    Except Err (Series × Series × Series × Series) :=
  if fl = 0 then
    (defocus_file_to_table lines).bind fun t =>
    (refactor0 t).bind fun du =>
    Except.ok (du, emptySeries, emptySeries, emptySeries)
  else if fl = 1 then
    (defocus_file_to_table lines).bind fun t =>
    (refactor1 t).bind fun x =>
    Except.ok (x.1, x.2.1, x.2.2, emptySeries)
  else if fl = 4 then
    (defocus_file_to_table lines).bind fun t =>
    (refactor4 t).bind fun x =>
    Except.ok (x.1, emptySeries, emptySeries, x.2)
  else if fl = 5 then
    (defocus_file_to_table lines).bind fun t =>
    (refactor5 t).bind fun x =>
    Except.ok x
  else if fl = 37 then
    (defocus_file_to_table lines).bind fun t =>
    (refactor37 t).bind fun _ =>
    Except.error Err.unpackMismatch
  else Except.error (Err.unsupportedFlag fl)

/-- `ImodCtfSeries._parse_defocus_file` (ctf.py lines 71-213): detect the
flag, build the per-parameter series, then reduce images 1..n_imgs in
order.  The image count `n_imgs` comes from the external MRC reader and is
a parameter here. -/
def parse_defocus_file (lines : List (List ℚ)) (n_imgs : ℕ) :
    Except Err (List CTFMetadata) :=
  (get_defocus_file_flag lines).bind fun fl =>
  (loadQuad fl lines).bind fun q =>
  mapE (fun i => reduceImage (q.1 i) (q.2.1 i) (q.2.2.1 i) (q.2.2.2 i))
    (idxList n_imgs)

/-- Fixed-point decimal rounding, modelling Python `"%.nf"` formatting of
a value followed by `float()` re-parsing (ties idealized as half-up; the
round-trip inputs considered below are not ties). -/
def roundTo (n : ℕ) (x : ℚ) : ℚ :=
  ((⌊x * 10 ^ n + 1 / 2⌋ : ℤ) : ℚ) / 10 ^ n

/-- One data line written by `ImodCtfSeries.cets_to_imod` (ctf.py lines
57-65): `"%i\t%i\t%.2f\t%.2f\t%.1f\t%.1f\t%.2f" % (ind, ind, tilt, tilt,
defocus_u / 10, defocus_v / 10, defocus_angle)` — the defocus values are
written in nm with ONE decimal place, the angle with TWO. -/
def mkLine (i : ℕ) (md : CTFMetadata) (t : ℚ) : List ℚ :=
  [(i : ℚ), (i : ℚ), roundTo 2 t, roundTo 2 t,
   roundTo 1 (md.defocus_u / 10), roundTo 1 (md.defocus_v / 10),
   roundTo 2 md.defocus_angle]

/-- The enumerated writer loop of `cets_to_imod`, starting at IMOD index
`i` (indices start at 1). -/
def dataLines : List CTFMetadata → List ℚ → ℕ → List (List ℚ)
  | md :: mds, t :: ts, i => mkLine i md t :: dataLines mds ts (i + 1)
  | _, _, _ => []

/-- `ImodCtfSeries.cets_to_imod` (ctf.py lines 34-69): requires as many
tilt angles as metadata records, then emits the fixed header line
`1 0 0.0 0.0 0.0 3` followed by one data line per image. -/
def cets_to_imod (md_list : List CTFMetadata) (tilt_angle_list : List ℚ) :
    Except Err (List (List ℚ)) :=
  if md_list.length ≠ tilt_angle_list.length then Except.error Err.countMismatch
  else Except.ok ([1, 0, 0, 0, 0, 3] :: dataLines md_list tilt_angle_list 1)

/-- Modelled from the spec: the median-of-middle rule as the spec states
it (`m = floor(L/2)`; even length → average of elements at indices `m` and
`m-1`; odd length → element at index `m`), written as a total function for
comparison with the source's `middleValue` and `middleDefocus`. -/
def middleRuleSpec (l : List ℚ) : ℚ :=
  let m := l.length / 2
  if l.length % 2 = 0 then (l.getD m 0 + l.getD (m - 1) 0) / 2
  else l.getD m 0

/-- Whether a table row's inclusive `[start, end]` index range covers
image index `i` (`start = int(col0)`, `end = int(col1)`). -/
def covers (row : List ℚ) (i : ℤ) : Bool :=
  decide (ratTrunc (row.getD 0 0) ≤ i) && decide (i ≤ ratTrunc (row.getD 1 0))

/-! ### Basic lemmas about the embedding's plumbing -/

@[simp]
theorem ok_bind {α β : Type} (a : α) (f : α → Except Err β) :
    (Except.ok a : Except Err α).bind f = f a := rfl

@[simp]
theorem error_bind {α β : Type} (e : Err) (f : α → Except Err β) :
    (Except.error e : Except Err α).bind f = Except.error e := rfl

theorem pyIdx_ok {α : Type} (l : List α) (n : ℕ) (h : n < l.length) :
    pyIdx l n = Except.ok (l.get ⟨n, h⟩) := by
  unfold pyIdx
  rw [List.get?_eq_get h]

theorem pyIdx_getD (l : List ℚ) (n : ℕ) (h : n < l.length) :
    pyIdx l n = Except.ok (l.getD n 0) := by
  rw [pyIdx_ok l n h, List.getD_eq_get?, List.get?_eq_get h]
  rfl

theorem pyIdx_err {α : Type} (l : List α) (n : ℕ) (e : Err)
    (h : pyIdx l n = Except.error e) : e = Err.indexError := by
  unfold pyIdx at h
  cases hg : l.get? n with
  | none => rw [hg] at h; exact (Except.error.injEq _ _).mp h.symm
  | some x => rw [hg] at h; exact absurd h (by simp)

theorem appendToDict_apply (d : Series) (i : ℤ) (v : ℚ) (j : ℤ) :
    appendToDict d i v j = if j = i then d j ++ [v] else d j := rfl

theorem foldl_appendToDict (v : ℚ) (L : List ℤ) (d : Series) (i : ℤ) :
    (L.foldl (fun d j => appendToDict d j v) d) i =
      d i ++ List.replicate (L.count i) v := by
  induction L generalizing d with
  | nil => simp
  | cons j L ih =>
    rw [List.foldl_cons, ih]
    by_cases hj : i = j
    · subst hj
      rw [appendToDict_apply, if_pos rfl, List.count_cons_self, List.append_assoc,
        List.replicate_succ, List.singleton_append]
    · rw [appendToDict_apply, if_neg hj, List.count_cons_of_ne hj]

theorem mem_intRange (s e i : ℤ) : i ∈ intRange s e ↔ s ≤ i ∧ i ≤ e := by
  unfold intRange
  constructor
  · intro h
    obtain ⟨k, hk, rfl⟩ := List.mem_map.mp h
    have := List.mem_range.mp hk
    omega
  · intro h
    exact List.mem_map.mpr ⟨(i - s).toNat, List.mem_range.mpr (by omega), by omega⟩

theorem intRange_nodup (s e : ℤ) : (intRange s e).Nodup := by
  unfold intRange
  refine List.Nodup.map ?_ (List.nodup_range _)
  intro a b h
  have h2 : s + (a : ℤ) = s + (b : ℤ) := h
  omega

theorem intRange_count (s e i : ℤ) :
    (intRange s e).count i = if s ≤ i ∧ i ≤ e then 1 else 0 := by
  by_cases h : s ≤ i ∧ i ≤ e
  · rw [if_pos h]
    exact List.count_eq_one_of_mem (intRange_nodup s e) ((mem_intRange s e i).mpr h)
  · rw [if_neg h]
    exact List.count_eq_zero_of_not_mem (fun hm => h ((mem_intRange s e i).mp hm))

theorem appendRange_apply (d : Series) (s e : ℤ) (v : ℚ) (i : ℤ) :
    appendRange d s e v i = d i ++ (if s ≤ i ∧ i ≤ e then [v] else []) := by
  unfold appendRange
  rw [foldl_appendToDict, intRange_count]
  by_cases h : s ≤ i ∧ i ≤ e <;> simp [h]

theorem bind_err_trans {α β : Type} {x : Except Err α} {f : α → Except Err β} {e : Err}
    (hx : ∀ e2, x = Except.error e2 → e2 = Err.indexError)
    (hf : ∀ a e2, f a = Except.error e2 → e2 = Err.indexError)
    (h : x.bind f = Except.error e) : e = Err.indexError := by
  cases x with
  | error e2 =>
    simp only [error_bind, Except.error.injEq] at h
    exact h ▸ hx e2 rfl
  | ok a =>
    simp only [ok_bind] at h
    exact hf a e h

theorem step0_ok (d : Series) (row : List ℚ) (h : 5 ≤ row.length) :
    step0 d row =
      Except.ok (fun i => d i ++ (if covers row i then [row.getD 4 0 * 10] else [])) := by
  unfold step0
  rw [pyIdx_getD row 0 (by omega), pyIdx_getD row 1 (by omega),
    pyIdx_getD row 4 (by omega)]
  simp only [ok_bind, Except.ok.injEq]
  funext i
  rw [appendRange_apply]
  unfold covers
  by_cases h1 : ratTrunc (row.getD 0 0) ≤ i <;>
    by_cases h2 : i ≤ ratTrunc (row.getD 1 0) <;> simp [h1, h2]

theorem step0_err (d : Series) (row : List ℚ) (e : Err)
    (h : step0 d row = Except.error e) : e = Err.indexError := by
  unfold step0 at h
  refine bind_err_trans (fun e2 he => pyIdx_err _ _ _ he) (fun c0 e2 he => ?_) h
  refine bind_err_trans (fun e2 he => pyIdx_err _ _ _ he) (fun c1 e2 he => ?_) he
  refine bind_err_trans (fun e2 he => pyIdx_err _ _ _ he) (fun c4 e2 he => ?_) he
  exact absurd he (by simp)

theorem foldE_step0 (table : List (List ℚ)) (h : ∀ r ∈ table, 5 ≤ r.length) (d : Series) :
    ∃ d2, foldE step0 d table = Except.ok d2 ∧
      ∀ i, d2 i = d i ++
        (table.filter (fun r => covers r i)).map (fun r => r.getD 4 0 * 10) := by
  induction table generalizing d with
  | nil => exact ⟨d, rfl, by simp⟩
  | cons r rest ih =>
    have hr : 5 ≤ r.length := h r (List.mem_cons_self r rest)
    obtain ⟨d2, hfold, hi⟩ := ih (fun x hx => h x (List.mem_cons_of_mem r hx))
      (fun i => d i ++ (if covers r i then [r.getD 4 0 * 10] else []))
    refine ⟨d2, ?_, ?_⟩
    · show foldE step0 d (r :: rest) = Except.ok d2
      rw [foldE, step0_ok d r hr]
      exact hfold
    · intro i
      rw [hi i, List.filter_cons]
      by_cases hc : covers r i <;> simp [hc, List.append_assoc]

theorem step1_ok (d : Series × Series × Series) (row : List ℚ) (h : 7 ≤ row.length) :
    step1 d row = Except.ok
      (fun i => d.1 i ++ (if covers row i then [row.getD 4 0 * 10] else []),
       fun i => d.2.1 i ++ (if covers row i then [row.getD 5 0 * 10] else []),
       fun i => d.2.2 i ++ (if covers row i then [row.getD 6 0] else [])) := by
  unfold step1
  rw [pyIdx_getD row 0 (by omega), pyIdx_getD row 1 (by omega),
    pyIdx_getD row 4 (by omega), pyIdx_getD row 5 (by omega),
    pyIdx_getD row 6 (by omega)]
  simp only [ok_bind, Except.ok.injEq, Prod.mk.injEq]
  refine ⟨?_, ?_, ?_⟩ <;> funext i <;> rw [appendRange_apply] <;> unfold covers <;>
    (by_cases h1 : ratTrunc (row.getD 0 0) ≤ i <;>
      by_cases h2 : i ≤ ratTrunc (row.getD 1 0) <;> simp [h1, h2])

theorem step1_err (d : Series × Series × Series) (row : List ℚ) (e : Err)
    (h : step1 d row = Except.error e) : e = Err.indexError := by
  unfold step1 at h
  refine bind_err_trans (fun e2 he => pyIdx_err _ _ _ he) (fun c0 e2 he => ?_) h
  refine bind_err_trans (fun e2 he => pyIdx_err _ _ _ he) (fun c1 e2 he => ?_) he
  refine bind_err_trans (fun e2 he => pyIdx_err _ _ _ he) (fun c4 e2 he => ?_) he
  refine bind_err_trans (fun e2 he => pyIdx_err _ _ _ he) (fun c5 e2 he => ?_) he
  refine bind_err_trans (fun e2 he => pyIdx_err _ _ _ he) (fun c6 e2 he => ?_) he
  exact absurd he (by simp)

theorem step4_err (d : Series × Series) (row : List ℚ) (e : Err)
    (h : step4 d row = Except.error e) : e = Err.indexError := by
  unfold step4 at h
  refine bind_err_trans (fun e2 he => pyIdx_err _ _ _ he) (fun c0 e2 he => ?_) h
  refine bind_err_trans (fun e2 he => pyIdx_err _ _ _ he) (fun c1 e2 he => ?_) he
  refine bind_err_trans (fun e2 he => pyIdx_err _ _ _ he) (fun c4 e2 he => ?_) he
  refine bind_err_trans (fun e2 he => pyIdx_err _ _ _ he) (fun c5 e2 he => ?_) he
  exact absurd he (by simp)

theorem step5_err (d : Series × Series × Series × Series) (row : List ℚ) (e : Err)
    (h : step5 d row = Except.error e) : e = Err.indexError := by
  unfold step5 at h
  refine bind_err_trans (fun e2 he => pyIdx_err _ _ _ he) (fun c0 e2 he => ?_) h
  refine bind_err_trans (fun e2 he => pyIdx_err _ _ _ he) (fun c1 e2 he => ?_) he
  refine bind_err_trans (fun e2 he => pyIdx_err _ _ _ he) (fun c4 e2 he => ?_) he
  refine bind_err_trans (fun e2 he => pyIdx_err _ _ _ he) (fun c5 e2 he => ?_) he
  refine bind_err_trans (fun e2 he => pyIdx_err _ _ _ he) (fun c6 e2 he => ?_) he
  refine bind_err_trans (fun e2 he => pyIdx_err _ _ _ he) (fun c7 e2 he => ?_) he
  exact absurd he (by simp)

theorem foldE_step1 (table : List (List ℚ)) (h : ∀ r ∈ table, 7 ≤ r.length)
    (d : Series × Series × Series) :
    ∃ d2, foldE step1 d table = Except.ok d2 ∧
      (∀ i, d2.1 i = d.1 i ++
        (table.filter (fun r => covers r i)).map (fun r => r.getD 4 0 * 10)) ∧
      (∀ i, d2.2.1 i = d.2.1 i ++
        (table.filter (fun r => covers r i)).map (fun r => r.getD 5 0 * 10)) ∧
      (∀ i, d2.2.2 i = d.2.2 i ++
        (table.filter (fun r => covers r i)).map (fun r => r.getD 6 0)) := by
  induction table generalizing d with
  | nil => exact ⟨d, rfl, by simp, by simp, by simp⟩
  | cons r rest ih =>
    have hr : 7 ≤ r.length := h r (List.mem_cons_self r rest)
    obtain ⟨d2, hfold, h1, h2, h3⟩ := ih (fun x hx => h x (List.mem_cons_of_mem r hx))
      (fun i => d.1 i ++ (if covers r i then [r.getD 4 0 * 10] else []),
       fun i => d.2.1 i ++ (if covers r i then [r.getD 5 0 * 10] else []),
       fun i => d.2.2 i ++ (if covers r i then [r.getD 6 0] else []))
    refine ⟨d2, ?_, ?_, ?_, ?_⟩
    · show foldE step1 d (r :: rest) = Except.ok d2
      rw [foldE, step1_ok d r hr]
      exact hfold
    · intro i
      rw [h1 i, List.filter_cons]
      by_cases hc : covers r i <;> simp [hc, List.append_assoc]
    · intro i
      rw [h2 i, List.filter_cons]
      by_cases hc : covers r i <;> simp [hc, List.append_assoc]
    · intro i
      rw [h3 i, List.filter_cons]
      by_cases hc : covers r i <;> simp [hc, List.append_assoc]

theorem step4_ok (d : Series × Series) (row : List ℚ) (h : 6 ≤ row.length) :
    step4 d row = Except.ok
      (fun i => d.1 i ++ (if covers row i then [row.getD 4 0 * 10] else []),
       fun i => d.2 i ++ (if covers row i then [row.getD 5 0] else [])) := by
  unfold step4
  rw [pyIdx_getD row 0 (by omega), pyIdx_getD row 1 (by omega),
    pyIdx_getD row 4 (by omega), pyIdx_getD row 5 (by omega)]
  simp only [ok_bind, Except.ok.injEq, Prod.mk.injEq]
  refine ⟨?_, ?_⟩ <;> funext i <;> rw [appendRange_apply] <;> unfold covers <;>
    (by_cases h1 : ratTrunc (row.getD 0 0) ≤ i <;>
      by_cases h2 : i ≤ ratTrunc (row.getD 1 0) <;> simp [h1, h2])

theorem step5_ok (d : Series × Series × Series × Series) (row : List ℚ)
    (h : 8 ≤ row.length) :
    step5 d row = Except.ok
      (fun i => d.1 i ++ (if covers row i then [row.getD 4 0 * 10] else []),
       fun i => d.2.1 i ++ (if covers row i then [row.getD 5 0 * 10] else []),
       fun i => d.2.2.1 i ++ (if covers row i then [row.getD 6 0] else []),
       fun i => d.2.2.2 i ++ (if covers row i then [row.getD 7 0] else [])) := by
  unfold step5
  rw [pyIdx_getD row 0 (by omega), pyIdx_getD row 1 (by omega),
    pyIdx_getD row 4 (by omega), pyIdx_getD row 5 (by omega),
    pyIdx_getD row 6 (by omega), pyIdx_getD row 7 (by omega)]
  simp only [ok_bind, Except.ok.injEq, Prod.mk.injEq]
  refine ⟨?_, ?_, ?_, ?_⟩ <;> funext i <;> rw [appendRange_apply] <;>
    unfold covers <;>
    (by_cases h1 : ratTrunc (row.getD 0 0) ≤ i <;>
      by_cases h2 : i ≤ ratTrunc (row.getD 1 0) <;> simp [h1, h2])

theorem foldE_step4 (table : List (List ℚ)) (h : ∀ r ∈ table, 6 ≤ r.length)
    (d : Series × Series) :
    ∃ d2, foldE step4 d table = Except.ok d2 ∧
      (∀ i, d2.1 i = d.1 i ++
        (table.filter (fun r => covers r i)).map (fun r => r.getD 4 0 * 10)) ∧
      (∀ i, d2.2 i = d.2 i ++
        (table.filter (fun r => covers r i)).map (fun r => r.getD 5 0)) := by
  induction table generalizing d with
  | nil => exact ⟨d, rfl, by simp, by simp⟩
  | cons r rest ih =>
    have hr : 6 ≤ r.length := h r (List.mem_cons_self r rest)
    obtain ⟨d2, hfold, h1, h2⟩ := ih (fun x hx => h x (List.mem_cons_of_mem r hx))
      (fun i => d.1 i ++ (if covers r i then [r.getD 4 0 * 10] else []),
       fun i => d.2 i ++ (if covers r i then [r.getD 5 0] else []))
    refine ⟨d2, ?_, ?_, ?_⟩
    · show foldE step4 d (r :: rest) = Except.ok d2
      rw [foldE, step4_ok d r hr]
      exact hfold
    · intro i
      rw [h1 i, List.filter_cons]
      by_cases hc : covers r i <;> simp [hc, List.append_assoc]
    · intro i
      rw [h2 i, List.filter_cons]
      by_cases hc : covers r i <;> simp [hc, List.append_assoc]

theorem foldE_step5 (table : List (List ℚ)) (h : ∀ r ∈ table, 8 ≤ r.length)
    (d : Series × Series × Series × Series) :
    ∃ d2, foldE step5 d table = Except.ok d2 ∧
      (∀ i, d2.1 i = d.1 i ++
        (table.filter (fun r => covers r i)).map (fun r => r.getD 4 0 * 10)) ∧
      (∀ i, d2.2.1 i = d.2.1 i ++
        (table.filter (fun r => covers r i)).map (fun r => r.getD 5 0 * 10)) ∧
      (∀ i, d2.2.2.1 i = d.2.2.1 i ++
        (table.filter (fun r => covers r i)).map (fun r => r.getD 6 0)) ∧
      (∀ i, d2.2.2.2 i = d.2.2.2 i ++
        (table.filter (fun r => covers r i)).map (fun r => r.getD 7 0)) := by
  induction table generalizing d with
  | nil => exact ⟨d, rfl, by simp, by simp, by simp, by simp⟩
  | cons r rest ih =>
    have hr : 8 ≤ r.length := h r (List.mem_cons_self r rest)
    obtain ⟨d2, hfold, h1, h2, h3, h4⟩ :=
      ih (fun x hx => h x (List.mem_cons_of_mem r hx))
      (fun i => d.1 i ++ (if covers r i then [r.getD 4 0 * 10] else []),
       fun i => d.2.1 i ++ (if covers r i then [r.getD 5 0 * 10] else []),
       fun i => d.2.2.1 i ++ (if covers r i then [r.getD 6 0] else []),
       fun i => d.2.2.2 i ++ (if covers r i then [r.getD 7 0] else []))
    refine ⟨d2, ?_, ?_, ?_, ?_, ?_⟩
    · show foldE step5 d (r :: rest) = Except.ok d2
      rw [foldE, step5_ok d r hr]
      exact hfold
    · intro i
      rw [h1 i, List.filter_cons]
      by_cases hc : covers r i <;> simp [hc, List.append_assoc]
    · intro i
      rw [h2 i, List.filter_cons]
      by_cases hc : covers r i <;> simp [hc, List.append_assoc]
    · intro i
      rw [h3 i, List.filter_cons]
      by_cases hc : covers r i <;> simp [hc, List.append_assoc]
    · intro i
      rw [h4 i, List.filter_cons]
      by_cases hc : covers r i <;> simp [hc, List.append_assoc]

theorem foldE_err {σ α : Type} (f : σ → α → Except Err σ)
    (hf : ∀ s a e, f s a = Except.error e → e = Err.indexError) :
    ∀ (l : List α) (s : σ) (e : Err),
      foldE f s l = Except.error e → e = Err.indexError := by
  intro l
  induction l with
  | nil => intro s e h; exact absurd h (by simp [foldE])
  | cons x xs ih =>
    intro s e h
    cases hx : f s x with
    | error e2 =>
      simp only [foldE, hx, Except.error.injEq] at h
      exact h ▸ hf s x e2 hx
    | ok s2 =>
      simp only [foldE, hx] at h
      exact ih s2 e h

theorem middleValue_spec (l : List ℚ) (h : l ≠ []) :
    middleValue l = Except.ok (middleRuleSpec l) := by
  have hl : 0 < l.length := List.length_pos.mpr h
  simp only [middleValue, middleRuleSpec]
  by_cases hp : l.length % 2 = 0
  · have hm : l.length / 2 < l.length := by omega
    have hm1 : l.length / 2 - 1 < l.length := by omega
    rw [if_pos hp, if_pos hp, pyIdx_getD _ _ hm, pyIdx_getD _ _ hm1]
    rfl
  · have hm : l.length / 2 < l.length := by omega
    rw [if_neg hp, if_neg hp, pyIdx_getD _ _ hm]

theorem middleValue_err (l : List ℚ) (e : Err)
    (h : middleValue l = Except.error e) : e = Err.indexError := by
  simp only [middleValue] at h
  by_cases hp : l.length % 2 = 0
  · rw [if_pos hp] at h
    refine bind_err_trans (fun e2 he => pyIdx_err _ _ _ he) (fun a e2 he => ?_) h
    refine bind_err_trans (fun e2 he => pyIdx_err _ _ _ he) (fun b e2 he => ?_) he
    exact absurd he (by simp)
  · rw [if_neg hp] at h
    exact pyIdx_err _ _ _ h

theorem middleDefocus_spec (u v a : List ℚ) (hu : u ≠ [])
    (hv : v.length = u.length) (ha : a.length = u.length) :
    middleDefocus u v a =
      Except.ok (middleRuleSpec u, middleRuleSpec v, middleRuleSpec a) := by
  have hl : 0 < u.length := List.length_pos.mpr hu
  simp only [middleDefocus, middleRuleSpec]
  by_cases hp : u.length % 2 = 0
  · have hm : u.length / 2 < u.length := by omega
    have hm1 : u.length / 2 - 1 < u.length := by omega
    rw [if_pos hp, pyIdx_getD u _ hm, pyIdx_getD u _ hm1,
      pyIdx_getD v _ (by omega), pyIdx_getD v _ (by omega),
      pyIdx_getD a _ (by omega), pyIdx_getD a _ (by omega)]
    simp only [ok_bind, Except.ok.injEq, Prod.mk.injEq]
    rw [hv, ha]
    refine ⟨by rw [if_pos hp], by rw [if_pos hp], by rw [if_pos hp]⟩
  · have hm : u.length / 2 < u.length := by omega
    rw [if_neg hp, pyIdx_getD u _ hm, pyIdx_getD v _ (by omega),
      pyIdx_getD a _ (by omega)]
    simp only [ok_bind, Except.ok.injEq, Prod.mk.injEq]
    rw [hv, ha]
    refine ⟨by rw [if_neg hp], by rw [if_neg hp], by rw [if_neg hp]⟩

theorem middleDefocus_err (u v a : List ℚ) (e : Err)
    (h : middleDefocus u v a = Except.error e) : e = Err.indexError := by
  simp only [middleDefocus] at h
  by_cases hp : u.length % 2 = 0
  · rw [if_pos hp] at h
    refine bind_err_trans (fun e2 he => pyIdx_err _ _ _ he) (fun x1 e2 he => ?_) h
    refine bind_err_trans (fun e2 he => pyIdx_err _ _ _ he) (fun x2 e2 he => ?_) he
    refine bind_err_trans (fun e2 he => pyIdx_err _ _ _ he) (fun x3 e2 he => ?_) he
    refine bind_err_trans (fun e2 he => pyIdx_err _ _ _ he) (fun x4 e2 he => ?_) he
    refine bind_err_trans (fun e2 he => pyIdx_err _ _ _ he) (fun x5 e2 he => ?_) he
    refine bind_err_trans (fun e2 he => pyIdx_err _ _ _ he) (fun x6 e2 he => ?_) he
    exact absurd he (by simp)
  · rw [if_neg hp] at h
    refine bind_err_trans (fun e2 he => pyIdx_err _ _ _ he) (fun x1 e2 he => ?_) h
    refine bind_err_trans (fun e2 he => pyIdx_err _ _ _ he) (fun x2 e2 he => ?_) he
    refine bind_err_trans (fun e2 he => pyIdx_err _ _ _ he) (fun x3 e2 he => ?_) he
    exact absurd he (by simp)

theorem standarize_swap_order (u v a : ℚ) :
    (standarize_defocus u v a).2.1 ≤ (standarize_defocus u v a).1 := by
  simp only [standarize_defocus]
  by_cases h : v > u
  · rw [if_pos h]
    exact le_of_lt h
  · rw [if_neg h]
    exact le_of_not_lt h

theorem standarize_angle_eq (u v a : ℚ) :
    (standarize_defocus u v a).2.2 =
      (if postSwapAngle u v a ≥ 180 then postSwapAngle u v a - 180
       else if postSwapAngle u v a < 0 then postSwapAngle u v a + 180
       else postSwapAngle u v a) := by
  simp only [standarize_defocus, postSwapAngle]
  by_cases h : v > u <;> simp [h]

theorem standarize_angle_bounds (u v a : ℚ)
    (h1 : -180 ≤ postSwapAngle u v a) (h2 : postSwapAngle u v a < 360) :
    0 ≤ (standarize_defocus u v a).2.2 ∧ (standarize_defocus u v a).2.2 < 180 := by
  rw [standarize_angle_eq]
  by_cases hx : postSwapAngle u v a ≥ 180
  · rw [if_pos hx]
    constructor <;> linarith
  · rw [if_neg hx]
    by_cases hy : postSwapAngle u v a < 0
    · rw [if_pos hy]
      constructor <;> linarith
    · rw [if_neg hy]
      constructor <;> linarith

theorem standarize_id (u v a : ℚ) (h1 : ¬ v > u) (h2 : ¬ a ≥ 180) (h3 : ¬ a < 0) :
    standarize_defocus u v a = (u, v, a) := by
  simp only [standarize_defocus]
  rw [if_neg h1]
  simp only [if_neg h2, if_neg h3]

theorem reduceImage_single (x y z : ℚ) :
    reduceImage [x] [y] [z] [] = Except.ok
      ⟨(standarize_defocus x y z).1, (standarize_defocus x y z).2.1,
       (standarize_defocus x y z).2.2, 0, -1⟩ := by
  have hd : reduceDefocus [x] [y] [z] = Except.ok (x, y, z) := by
    simp only [reduceDefocus]
    rw [if_pos (by simp)]
    rw [if_neg (by simp)]
    simp only [middleDefocus]
    norm_num
    rw [pyIdx_ok [x] 0 (by simp), pyIdx_ok [y] 0 (by simp), pyIdx_ok [z] 0 (by simp)]
    rfl
  simp only [reduceImage, hd, ok_bind, reducePhase]
  rw [if_neg (by simp)]
  rfl

theorem mapE_ok_of {α β : Type} (f : α → Except Err β) (g : α → β) (l : List α)
    (h : ∀ x ∈ l, f x = Except.ok (g x)) : mapE f l = Except.ok (l.map g) := by
  induction l with
  | nil => rfl
  | cons x xs ih =>
    simp only [mapE, h x (List.mem_cons_self x xs),
      ih (fun y hy => h y (List.mem_cons_of_mem x hy)), List.map_cons]

theorem mapE_mem {α β : Type} (f : α → Except Err β) (l : List α) (out : List β)
    (h : mapE f l = Except.ok out) : ∀ y ∈ out, ∃ x ∈ l, f x = Except.ok y := by
  induction l generalizing out with
  | nil =>
    simp only [mapE, Except.ok.injEq] at h
    subst h
    simp
  | cons x xs ih =>
    intro y hy
    cases hx : f x with
    | error e => rw [mapE, hx] at h; exact absurd h (by simp)
    | ok b =>
      rw [mapE, hx] at h
      cases hrest : mapE f xs with
      | error e => rw [hrest] at h; exact absurd h (by simp)
      | ok ys =>
        rw [hrest] at h
        simp only [Except.ok.injEq] at h
        subst h
        rcases List.mem_cons.mp hy with hb | hys
        · exact ⟨x, List.mem_cons_self x xs, hb ▸ hx⟩
        · obtain ⟨z, hz, hfz⟩ := ih ys hrest y hys
          exact ⟨z, List.mem_cons_of_mem x hz, hfz⟩

theorem reduceImage_flag0 (u : List ℚ) (r : CTFMetadata)
    (h : reduceImage u [] [] [] = Except.ok r) :
    r.defocus_v = r.defocus_u ∧ r.defocus_angle = 0 := by
  simp only [reduceImage, reduceDefocus] at h
  rw [if_neg (by simp)] at h
  cases hm : middleValue (if u ≠ [] then u else []) with
  | error e => rw [hm] at h; exact absurd h (by simp)
  | ok x =>
    rw [hm] at h
    simp only [ok_bind, reducePhase] at h
    rw [if_neg (by simp)] at h
    simp only [ok_bind] at h
    rw [standarize_id x x 0 (lt_irrefl x) (by norm_num) (by norm_num)] at h
    simp only [Except.ok.injEq] at h
    subst h
    exact ⟨rfl, rfl⟩

/-! ### Claim theorems -/

/-- C1: the central-value reduction used for defocus_u, defocus_v and
defocus_angle (via `middleDefocus`) and for phase_shift and the
single-defocus branch (via `middleValue`) picks, for a non-empty sequence
of length L with m = floor(L/2), the average of the elements at indices m
and m-1 when L is even and the element at index m when L is odd; in
particular [1.0, 3.0] reduces to 2.0 and [1.0, 2.0, 3.0] reduces to 2.0. -/
theorem c1_middle_value_rule (u v a : List ℚ) (hu : u ≠ [])
    (hv : v.length = u.length) (ha : a.length = u.length) :
    middleValue u = Except.ok (middleRuleSpec u) ∧
    middleDefocus u v a =
      Except.ok (middleRuleSpec u, middleRuleSpec v, middleRuleSpec a) ∧
    middleValue [(1 : ℚ), 3] = Except.ok 2 ∧
    middleValue [(1 : ℚ), 2, 3] = Except.ok 2 :=
  ⟨middleValue_spec u hu, middleDefocus_spec u v a hu hv ha, by decide, by decide⟩

/-- Witness for C1 at the concrete sequences of the claim. -/
theorem c1_witness :
    middleValue [(1 : ℚ), 3] = Except.ok (middleRuleSpec [(1 : ℚ), 3]) ∧
    middleRuleSpec [(1 : ℚ), 3] = 2 ∧
    middleValue [(1 : ℚ), 2, 3] = Except.ok (middleRuleSpec [(1 : ℚ), 2, 3]) ∧
    middleRuleSpec [(1 : ℚ), 2, 3] = 2 :=
  ⟨(c1_middle_value_rule [(1 : ℚ), 3] [(1 : ℚ), 3] [(1 : ℚ), 3]
      (by decide) rfl rfl).1, by decide,
   (c1_middle_value_rule [(1 : ℚ), 2, 3] [(1 : ℚ), 2, 3] [(1 : ℚ), 2, 3]
      (by decide) rfl rfl).1, by decide⟩

/-- C2 counterexample: defocus_u and defocus_v series of length 2 with a
defocus_angle series of length 5 — the lengths are NOT all equal, but they
sum to 9, divisible by 3 — and the reducer does not fail with
LengthMismatch: it proceeds and returns a reduced value. -/
theorem c2_counterexample :
    reduceDefocus [(100 : ℚ), 200] [(100 : ℚ), 200] [(10 : ℚ), 20, 30, 40, 50] =
      Except.ok (150, 150, 15) ∧
    [(100 : ℚ), 200].length ≠ [(10 : ℚ), 20, 30, 40, 50].length :=
  ⟨by decide, by decide⟩

/-- C2 amended: when both the defocus_u and defocus_v series are
non-empty, the reducer fails with LengthMismatch exactly when
len(u) + len(v) + len(angle) is NOT divisible by 3 (a weaker test than
all-equal), proceeds to the middle-value computation otherwise, and in the
all-equal case reduces each series by the middle-value rule. -/
theorem c2_amended (u v a : List ℚ) (hu : u ≠ []) (hv : v ≠ []) :
    (reduceDefocus u v a = Except.error Err.lengthMismatch ↔
      (u.length + v.length + a.length) % 3 ≠ 0) ∧
    ((u.length + v.length + a.length) % 3 = 0 →
      reduceDefocus u v a = middleDefocus u v a) ∧
    (v.length = u.length → a.length = u.length →
      reduceDefocus u v a =
        Except.ok (middleRuleSpec u, middleRuleSpec v, middleRuleSpec a)) := by
  have hunf : reduceDefocus u v a =
      if (u.length + v.length + a.length) % 3 ≠ 0 then Except.error Err.lengthMismatch
      else middleDefocus u v a := by
    simp only [reduceDefocus]
    rw [if_pos ⟨hu, hv⟩]
  have hmid : (u.length + v.length + a.length) % 3 = 0 →
      reduceDefocus u v a = middleDefocus u v a := by
    intro hm
    rw [hunf, if_neg (by omega)]
  refine ⟨⟨?_, ?_⟩, hmid, ?_⟩
  · intro h
    by_cases hm : (u.length + v.length + a.length) % 3 = 0
    · rw [hmid hm] at h
      exact absurd (middleDefocus_err u v a _ h) (by decide)
    · omega
  · intro hm
    rw [hunf, if_pos hm]
  · intro h1 h2
    rw [hmid (by omega)]
    exact middleDefocus_spec u v a hu h1 h2

/-- Witness for C2's amended theorem at concrete inputs. -/
theorem c2_amended_witness :
    reduceDefocus [(100 : ℚ)] [(200 : ℚ)] [] = Except.error Err.lengthMismatch ∧
    reduceDefocus [(100 : ℚ)] [(200 : ℚ)] [(30 : ℚ)] = Except.ok (100, 200, 30) := by
  have h1 := (c2_amended [(100 : ℚ)] [(200 : ℚ)] [] (by decide) (by decide)).1.mpr
    (by decide)
  have h2 := (c2_amended [(100 : ℚ)] [(200 : ℚ)] [(30 : ℚ)] (by decide) (by decide)).2.2
    (by decide) (by decide)
  refine ⟨h1, ?_⟩
  rw [h2]
  decide

/-- C3 counterexample: on input (100, 50, 400) — an angle beyond one wrap —
the standardizer returns angle 220, violating the claimed universal
post-condition angle_out < 180. -/
theorem c3_counterexample :
    standarize_defocus 100 50 400 = (100, 50, 220) ∧
    ¬ ((standarize_defocus 100 50 400).2.2 < 180) := ⟨by decide, by decide⟩

/-- C3 amended: the standardizer swaps u and v and adds 90 to the angle
when defocus_v > defocus_u, then applies a single wrap pass; u_out ≥ v_out
always holds, and 0 ≤ angle_out < 180 holds whenever the post-swap angle
lies within one wrap, i.e. in [-180, 360) (not for all real inputs). -/
theorem c3_amended (u v a : ℚ) :
    ((standarize_defocus u v a).1 = if v > u then v else u) ∧
    ((standarize_defocus u v a).2.1 = if v > u then u else v) ∧
    ((standarize_defocus u v a).2.2 =
      if postSwapAngle u v a ≥ 180 then postSwapAngle u v a - 180
      else if postSwapAngle u v a < 0 then postSwapAngle u v a + 180
      else postSwapAngle u v a) ∧
    (standarize_defocus u v a).2.1 ≤ (standarize_defocus u v a).1 ∧
    (-180 ≤ postSwapAngle u v a → postSwapAngle u v a < 360 →
      0 ≤ (standarize_defocus u v a).2.2 ∧
      (standarize_defocus u v a).2.2 < 180) := by
  refine ⟨?_, ?_, standarize_angle_eq u v a, standarize_swap_order u v a,
    standarize_angle_bounds u v a⟩
  · simp only [standarize_defocus]
    by_cases h : v > u <;> simp [h]
  · simp only [standarize_defocus]
    by_cases h : v > u <;> simp [h]

/-- Witness for C3's amended theorem at a concrete swapped input. -/
theorem c3_amended_witness :
    standarize_defocus 50 100 10 = (100, 50, 100) ∧
    (standarize_defocus 50 100 10).2.1 ≤ (standarize_defocus 50 100 10).1 ∧
    0 ≤ (standarize_defocus 50 100 10).2.2 ∧
    (standarize_defocus 50 100 10).2.2 < 180 := by
  have h := c3_amended 50 100 10
  exact ⟨by decide, h.2.2.2.1, h.2.2.2.2 (by decide) (by decide)⟩

/-- C5 counterexample: under flag 1 (7 columns expected) a table whose
FIRST row has 7 columns but whose second row has only 6 does not raise
ColumnCountMismatch; reading column 6 of the short row fails with an
unguarded IndexError instead. -/
theorem c5_counterexample :
    refactor1 [[(1 : ℚ), 1, 0, 0, 10, 20, 30], [(1 : ℚ), 1, 0, 0, 10, 20]] =
      Except.error Err.indexError ∧
    Err.indexError ≠ Err.columnCountMismatch 7 := ⟨by rfl, by decide⟩

/-- C5 amended: each per-flag refactorer validates the column count of the
FIRST table row only: it fails with ColumnCountMismatch (naming the
expected count 5/7/6/8/9 for flags 0/1/4/5/37) exactly when the first
row's column count differs from the expected one; wrong counts in later
rows are never reported as ColumnCountMismatch. -/
theorem c5_amended (h : List ℚ) (rest : List (List ℚ)) :
    (refactor0 (h :: rest) = Except.error (Err.columnCountMismatch 5) ↔
      h.length ≠ 5) ∧
    (refactor1 (h :: rest) = Except.error (Err.columnCountMismatch 7) ↔
      h.length ≠ 7) ∧
    (refactor4 (h :: rest) = Except.error (Err.columnCountMismatch 6) ↔
      h.length ≠ 6) ∧
    (refactor5 (h :: rest) = Except.error (Err.columnCountMismatch 8) ↔
      h.length ≠ 8) ∧
    (refactor37 (h :: rest) = Except.error (Err.columnCountMismatch 9) ↔
      h.length ≠ 9) := by
  have hidx : pyIdx (h :: rest) 0 = Except.ok h := pyIdx_ok _ 0 (by simp)
  refine ⟨?_, ?_, ?_, ?_, ?_⟩
  · unfold refactor0
    rw [hidx, ok_bind]
    by_cases hl : h.length = 5
    · rw [if_pos hl]
      simp only [hl, ne_eq, not_true_eq_false, iff_false]
      intro hcontra
      exact absurd (foldE_err step0 step0_err _ _ _ hcontra) (by decide)
    · rw [if_neg hl]
      simp [hl]
  · unfold refactor1
    rw [hidx, ok_bind]
    by_cases hl : h.length = 7
    · rw [if_pos hl]
      simp only [hl, ne_eq, not_true_eq_false, iff_false]
      intro hcontra
      exact absurd (foldE_err step1 step1_err _ _ _ hcontra) (by decide)
    · rw [if_neg hl]
      simp [hl]
  · unfold refactor4
    rw [hidx, ok_bind]
    by_cases hl : h.length = 6
    · rw [if_pos hl]
      simp only [hl, ne_eq, not_true_eq_false, iff_false]
      intro hcontra
      exact absurd (foldE_err step4 step4_err _ _ _ hcontra) (by decide)
    · rw [if_neg hl]
      simp [hl]
  · unfold refactor5
    rw [hidx, ok_bind]
    by_cases hl : h.length = 8
    · rw [if_pos hl]
      simp only [hl, ne_eq, not_true_eq_false, iff_false]
      intro hcontra
      exact absurd (foldE_err step5 step5_err _ _ _ hcontra) (by decide)
    · rw [if_neg hl]
      simp [hl]
  · unfold refactor37
    rw [hidx, ok_bind]
    by_cases hl : h.length = 9
    · rw [if_pos hl]
      simp only [hl, ne_eq, not_true_eq_false, iff_false]
      intro hcontra
      exact absurd (foldE_err step5 step5_err _ _ _ hcontra) (by decide)
    · rw [if_neg hl]
      simp [hl]

/-- Witness for C5's amended theorem: a 6-column FIRST row under flag 1
does raise ColumnCountMismatch 7. -/
theorem c5_amended_witness :
    refactor1 [[(1 : ℚ), 1, 0, 0, 10, 20]] =
      Except.error (Err.columnCountMismatch 7) :=
  (c5_amended [(1 : ℚ), 1, 0, 0, 10, 20] []).2.1.mpr (by decide)

/-- C6: the flag detector returns 0 for a one-line file, returns 0 when the
second line has exactly 5 tokens, and otherwise returns the integer value
of the first token of line 0; the whole conversion fails with an
UnsupportedFormat error when the resulting flag is not in {0, 1, 4, 5, 37},
for every image count (i.e. before any per-image work). -/
theorem c6_flag_detection (lines : List (List ℚ)) (n : ℕ) :
    (lines.length = 1 → get_defocus_file_flag lines = Except.ok 0) ∧
    (∀ l0 l1 rest, lines = l0 :: l1 :: rest → l1.length = 5 →
      get_defocus_file_flag lines = Except.ok 0) ∧
    (∀ l0 l1 rest t ts, lines = l0 :: l1 :: rest → l1.length ≠ 5 → l0 = t :: ts →
      get_defocus_file_flag lines = Except.ok (ratTrunc t)) ∧
    (∀ fl, get_defocus_file_flag lines = Except.ok fl →
      fl ≠ 0 → fl ≠ 1 → fl ≠ 4 → fl ≠ 5 → fl ≠ 37 →
      parse_defocus_file lines n = Except.error (Err.unsupportedFlag fl)) := by
  refine ⟨?_, ?_, ?_, ?_⟩
  · intro h
    match lines with
    | [l0] => rfl
  · rintro l0 l1 rest rfl h5
    simp [get_defocus_file_flag, h5]
  · rintro l0 l1 rest t ts rfl h5 rfl
    simp [get_defocus_file_flag, h5, pyIdx]
  · intro fl hfl h0 h1 h4 h5 h37
    unfold parse_defocus_file
    rw [hfl, ok_bind]
    unfold loadQuad
    rw [if_neg h0, if_neg h1, if_neg h4, if_neg h5, if_neg h37, error_bind]

/-- Witness for C6 at a concrete unsupported-flag file (flag 2). -/
theorem c6_witness :
    get_defocus_file_flag [[(2 : ℚ), 0, 0, 0, 0, 3], [(1 : ℚ), 1, 0, 0, 1, 1, 1]] =
      Except.ok 2 ∧
    parse_defocus_file [[(2 : ℚ), 0, 0, 0, 0, 3], [(1 : ℚ), 1, 0, 0, 1, 1, 1]] 3 =
      Except.error (Err.unsupportedFlag 2) := by
  have h := c6_flag_detection [[(2 : ℚ), 0, 0, 0, 0, 3], [(1 : ℚ), 1, 0, 0, 1, 1, 1]] 3
  have ht : ratTrunc 2 = 2 := by decide
  have hf := h.2.2.1 [(2 : ℚ), 0, 0, 0, 0, 3] [(1 : ℚ), 1, 0, 0, 1, 1, 1] []
    2 [0, 0, 0, 0, 3] rfl (by decide) rfl
  rw [ht] at hf
  exact ⟨hf, h.2.2.2 2 hf (by decide) (by decide) (by decide) (by decide) (by decide)⟩

/-- C7: under every supported flag, for a table whose rows all have the
expected column count, the refactorer succeeds and every produced series
at every index i is exactly the list of that parameter's transformed
column values (col4 × 10 for defocus_u, col5 × 10 for defocus_v, col6 for
defocus_angle, col5 or col7 for phase_shift — nm values scaled to Å) of
the rows whose [int(col0), int(col1)] range covers i, in row order — so
rows with overlapping ranges accumulate multiple values per index. -/
theorem c7_range_expansion (table : List (List ℚ)) (hne : table ≠ []) :
    ((∀ r ∈ table, r.length = 5) → ∃ d, refactor0 table = Except.ok d ∧
      ∀ i, d i =
        (table.filter (fun r => covers r i)).map (fun r => r.getD 4 0 * 10)) ∧
    ((∀ r ∈ table, r.length = 7) → ∃ d, refactor1 table = Except.ok d ∧
      (∀ i, d.1 i =
        (table.filter (fun r => covers r i)).map (fun r => r.getD 4 0 * 10)) ∧
      (∀ i, d.2.1 i =
        (table.filter (fun r => covers r i)).map (fun r => r.getD 5 0 * 10)) ∧
      (∀ i, d.2.2 i =
        (table.filter (fun r => covers r i)).map (fun r => r.getD 6 0))) ∧
    ((∀ r ∈ table, r.length = 6) → ∃ d, refactor4 table = Except.ok d ∧
      (∀ i, d.1 i =
        (table.filter (fun r => covers r i)).map (fun r => r.getD 4 0 * 10)) ∧
      (∀ i, d.2 i =
        (table.filter (fun r => covers r i)).map (fun r => r.getD 5 0))) ∧
    ((∀ r ∈ table, r.length = 8) → ∃ d, refactor5 table = Except.ok d ∧
      (∀ i, d.1 i =
        (table.filter (fun r => covers r i)).map (fun r => r.getD 4 0 * 10)) ∧
      (∀ i, d.2.1 i =
        (table.filter (fun r => covers r i)).map (fun r => r.getD 5 0 * 10)) ∧
      (∀ i, d.2.2.1 i =
        (table.filter (fun r => covers r i)).map (fun r => r.getD 6 0)) ∧
      (∀ i, d.2.2.2 i =
        (table.filter (fun r => covers r i)).map (fun r => r.getD 7 0))) ∧
    ((∀ r ∈ table, r.length = 9) → ∃ d, refactor37 table = Except.ok d ∧
      (∀ i, d.1 i =
        (table.filter (fun r => covers r i)).map (fun r => r.getD 4 0 * 10)) ∧
      (∀ i, d.2.1 i =
        (table.filter (fun r => covers r i)).map (fun r => r.getD 5 0 * 10)) ∧
      (∀ i, d.2.2.1 i =
        (table.filter (fun r => covers r i)).map (fun r => r.getD 6 0)) ∧
      (∀ i, d.2.2.2 i =
        (table.filter (fun r => covers r i)).map (fun r => r.getD 7 0))) := by
  obtain ⟨h, rest, rfl⟩ := List.exists_cons_of_ne_nil hne
  have hpy : pyIdx (h :: rest) 0 = Except.ok h := pyIdx_ok _ 0 (by simp)
  refine ⟨?_, ?_, ?_, ?_, ?_⟩
  · intro hlen
    obtain ⟨d2, hfold, hi⟩ :=
      foldE_step0 (h :: rest) (fun r hr => le_of_eq (hlen r hr).symm) emptySeries
    refine ⟨d2, ?_, fun i => by rw [hi i]; simp [emptySeries]⟩
    unfold refactor0
    rw [hpy, ok_bind, if_pos (hlen h (List.mem_cons_self h rest))]
    exact hfold
  · intro hlen
    obtain ⟨d2, hfold, h1, h2, h3⟩ :=
      foldE_step1 (h :: rest) (fun r hr => le_of_eq (hlen r hr).symm)
        (emptySeries, emptySeries, emptySeries)
    refine ⟨d2, ?_, fun i => by rw [h1 i]; simp [emptySeries],
      fun i => by rw [h2 i]; simp [emptySeries],
      fun i => by rw [h3 i]; simp [emptySeries]⟩
    unfold refactor1
    rw [hpy, ok_bind, if_pos (hlen h (List.mem_cons_self h rest))]
    exact hfold
  · intro hlen
    obtain ⟨d2, hfold, h1, h2⟩ :=
      foldE_step4 (h :: rest) (fun r hr => le_of_eq (hlen r hr).symm)
        (emptySeries, emptySeries)
    refine ⟨d2, ?_, fun i => by rw [h1 i]; simp [emptySeries],
      fun i => by rw [h2 i]; simp [emptySeries]⟩
    unfold refactor4
    rw [hpy, ok_bind, if_pos (hlen h (List.mem_cons_self h rest))]
    exact hfold
  · intro hlen
    obtain ⟨d2, hfold, h1, h2, h3, h4⟩ :=
      foldE_step5 (h :: rest) (fun r hr => le_of_eq (hlen r hr).symm)
        (emptySeries, emptySeries, emptySeries, emptySeries)
    refine ⟨d2, ?_, fun i => by rw [h1 i]; simp [emptySeries],
      fun i => by rw [h2 i]; simp [emptySeries],
      fun i => by rw [h3 i]; simp [emptySeries],
      fun i => by rw [h4 i]; simp [emptySeries]⟩
    unfold refactor5
    rw [hpy, ok_bind, if_pos (hlen h (List.mem_cons_self h rest))]
    exact hfold
  · intro hlen
    obtain ⟨d2, hfold, h1, h2, h3, h4⟩ :=
      foldE_step5 (h :: rest) (fun r hr => by rw [hlen r hr]; norm_num)
        (emptySeries, emptySeries, emptySeries, emptySeries)
    refine ⟨d2, ?_, fun i => by rw [h1 i]; simp [emptySeries],
      fun i => by rw [h2 i]; simp [emptySeries],
      fun i => by rw [h3 i]; simp [emptySeries],
      fun i => by rw [h4 i]; simp [emptySeries]⟩
    unfold refactor37
    rw [hpy, ok_bind, if_pos (hlen h (List.mem_cons_self h rest))]
    exact hfold

/-- Witness for C7: under flag 0 the row [1, 3, 0, 0, 12.5] assigns the
series [125.0] to each of the indices 1, 2, 3 and nothing elsewhere; under
flag 1 two rows with overlapping ranges accumulate both transformed values
at index 2, in row order, for all three parameters. -/
theorem c7_witness :
    (∃ d, refactor0 [[(1 : ℚ), 3, 0, 0, 12.5]] = Except.ok d ∧
      d 1 = [125] ∧ d 2 = [125] ∧ d 3 = [125] ∧ d 0 = [] ∧ d 4 = []) ∧
    (∃ d, refactor1 [[(1 : ℚ), 2, 0, 0, 12.5, 13.5, 45],
        [(2 : ℚ), 2, 0, 0, 20, 30, 60]] = Except.ok d ∧
      d.1 1 = [125] ∧ d.1 2 = [125, 200] ∧
      d.2.1 2 = [135, 300] ∧ d.2.2 2 = [45, 60]) := by
  constructor
  · obtain ⟨d, hd, hi⟩ := (c7_range_expansion [[(1 : ℚ), 3, 0, 0, 12.5]]
      (by decide)).1 (by decide)
    refine ⟨d, hd, ?_, ?_, ?_, ?_, ?_⟩ <;> rw [hi] <;> decide
  · obtain ⟨d, hd, h1, h2, h3⟩ := (c7_range_expansion
      [[(1 : ℚ), 2, 0, 0, 12.5, 13.5, 45], [(2 : ℚ), 2, 0, 0, 20, 30, 60]]
      (by decide)).2.1 (by decide)
    refine ⟨d, hd, ?_, ?_, ?_, ?_⟩
    · rw [h1]
      decide
    · rw [h1]
      decide
    · rw [h2]
      decide
    · rw [h3]
      decide

/-- C8: for every input file the flag detector classifies as flag 0
(plain estimation), every CTFMetadata record emitted by the conversion has
defocus_v equal to defocus_u and defocus_angle equal to 0. -/
theorem c8_flag0_symmetric (lines : List (List ℚ)) (n : ℕ)
    (out : List CTFMetadata)
    (hf : get_defocus_file_flag lines = Except.ok 0)
    (hp : parse_defocus_file lines n = Except.ok out) :
    ∀ r ∈ out, r.defocus_v = r.defocus_u ∧ r.defocus_angle = 0 := by
  unfold parse_defocus_file at hp
  rw [hf, ok_bind] at hp
  unfold loadQuad at hp
  rw [if_pos rfl] at hp
  cases ht : defocus_file_to_table lines with
  | error e => rw [ht, error_bind, error_bind] at hp; exact absurd hp (by simp)
  | ok t =>
    rw [ht, ok_bind] at hp
    cases hr : refactor0 t with
    | error e => rw [hr, error_bind, error_bind] at hp; exact absurd hp (by simp)
    | ok du =>
      rw [hr, ok_bind, ok_bind] at hp
      intro r hrout
      obtain ⟨i, _, hok⟩ := mapE_mem _ _ _ hp r hrout
      exact reduceImage_flag0 (du i) r hok

/-- Witness for C8 at a concrete flag-0 file covering images 1 and 2: the
record emitted for image 1 satisfies defocus_v = defocus_u and angle 0. -/
theorem c8_witness :
    (⟨125, 125, 0, 0, -1⟩ : CTFMetadata).defocus_v =
      (⟨125, 125, 0, 0, -1⟩ : CTFMetadata).defocus_u ∧
    (⟨125, 125, 0, 0, -1⟩ : CTFMetadata).defocus_angle = 0 :=
  c8_flag0_symmetric [[(1 : ℚ), 2, 0, 0, 12.5, 3]] 2
    [⟨125, 125, 0, 0, -1⟩, ⟨125, 125, 0, 0, -1⟩] (by decide) (by decide)
    ⟨125, 125, 0, 0, -1⟩ (by decide)

/-- C9: the phase-shift resolution step of the per-image reducer emits 0
when the phase_shift series is empty; when it is non-empty it fails with
LengthMismatch exactly when len(defocus_u) + len(phase_shift) +
len(defocus_angle) is not divisible by 3, and otherwise reduces the
phase_shift series by the middle-value rule. -/
theorem c9_phase_shift (u a p : List ℚ) :
    (p = [] → reducePhase u a p = Except.ok 0) ∧
    (p ≠ [] → (u.length + p.length + a.length) % 3 ≠ 0 →
      reducePhase u a p = Except.error Err.lengthMismatch) ∧
    (p ≠ [] → (u.length + p.length + a.length) % 3 = 0 →
      reducePhase u a p = Except.ok (middleRuleSpec p)) := by
  refine ⟨?_, ?_, ?_⟩
  · intro hp
    simp only [reducePhase]
    rw [if_neg (by simp [hp])]
  · intro hp hm
    simp only [reducePhase]
    rw [if_pos hp, if_pos hm]
  · intro hp hm
    simp only [reducePhase]
    rw [if_pos hp, if_neg (by omega)]
    exact middleValue_spec p hp

/-- Witness for C9: a flag-4 style image (one defocus estimate, one phase
estimate, no angle) fails the mod-3 check; an empty phase list yields 0; a
balanced triple reduces the phase list to its middle element. -/
theorem c9_witness :
    reducePhase [(1 : ℚ)] [] [(5 : ℚ)] = Except.error Err.lengthMismatch ∧
    reducePhase [(1 : ℚ)] [] [] = Except.ok 0 ∧
    reducePhase [(1 : ℚ), 2, 3] [(0 : ℚ), 0, 0] [(30 : ℚ), 40, 50] =
      Except.ok 40 := by
  have h1 := (c9_phase_shift [(1 : ℚ)] [] [(5 : ℚ)]).2.1 (by decide) (by decide)
  have h2 := (c9_phase_shift [(1 : ℚ)] [] []).1 rfl
  have h3 := (c9_phase_shift [(1 : ℚ), 2, 3] [(0 : ℚ), 0, 0]
    [(30 : ℚ), 40, 50]).2.2 (by decide) (by decide)
  rw [h3]
  have : middleRuleSpec [(30 : ℚ), 40, 50] = 40 := by decide
  rw [this] at h3
  exact ⟨h1, h2, h3⟩

/-- C10: an image index covered by no table row reaches the middle-value
computation with an empty sequence and fails with an unguarded IndexError
(not one of the documented errors): the bare reducer on four empty series
raises IndexError, a flag-0 file covering only image 1 makes the whole
conversion fail with IndexError when n_images = 2, while the same file
converts fine when every index in [1, n_images] is covered (n_images = 1). -/
theorem c10_uncovered_index_crash :
    reduceImage [] [] [] [] = Except.error Err.indexError ∧
    parse_defocus_file [[(1 : ℚ), 1, 0, 0, 12.5, 3]] 2 =
      Except.error Err.indexError ∧
    parse_defocus_file [[(1 : ℚ), 1, 0, 0, 12.5, 3]] 1 =
      Except.ok [⟨125, 125, 0, 0, -1⟩] ∧
    Err.indexError ≠ Err.lengthMismatch ∧
    Err.indexError ≠ Err.countMismatch ∧
    (∀ e, Err.indexError = Err.columnCountMismatch e → False) ∧
    (∀ fl, Err.indexError = Err.unsupportedFlag fl → False) := by
  refine ⟨by rfl, by decide, by decide, by decide, by decide, ?_, ?_⟩
  · intro e h
    cases h
  · intro fl h
    cases h

theorem ratTrunc_natCast (n : ℕ) : ratTrunc ((n : ℕ) : ℚ) = (n : ℤ) := by
  unfold ratTrunc
  rw [if_pos (by positivity), Int.floor_natCast]

theorem roundTo_le (n : ℕ) (x : ℚ) : roundTo n x ≤ x + 1 / (2 * 10 ^ n) := by
  unfold roundTo
  rw [div_le_iff (by positivity)]
  calc ((⌊x * 10 ^ n + 1 / 2⌋ : ℤ) : ℚ) ≤ x * 10 ^ n + 1 / 2 := Int.floor_le _
  _ = (x + 1 / (2 * 10 ^ n)) * 10 ^ n := by field_simp; ring

theorem roundTo_lt (n : ℕ) (x : ℚ) : x - 1 / (2 * 10 ^ n) < roundTo n x := by
  unfold roundTo
  rw [lt_div_iff (by positivity)]
  calc (x - 1 / (2 * 10 ^ n)) * 10 ^ n = x * 10 ^ n + 1 / 2 - 1 := by field_simp; ring
  _ < ((⌊x * 10 ^ n + 1 / 2⌋ : ℤ) : ℚ) := Int.sub_one_lt_floor _

theorem abs_roundTo_sub (n : ℕ) (x : ℚ) : |roundTo n x - x| ≤ 1 / (2 * 10 ^ n) := by
  rw [abs_le]
  constructor
  · have := roundTo_lt n x
    linarith
  · have := roundTo_le n x
    linarith

theorem roundTo_mono (n : ℕ) {x y : ℚ} (h : x ≤ y) : roundTo n x ≤ roundTo n y := by
  unfold roundTo
  have hfl : (⌊x * 10 ^ n + 1 / 2⌋ : ℤ) ≤ ⌊y * 10 ^ n + 1 / 2⌋ := by
    apply Int.floor_le_floor
    have hp : (0 : ℚ) ≤ 10 ^ n := by positivity
    nlinarith
  have hc : ((⌊x * 10 ^ n + 1 / 2⌋ : ℤ) : ℚ) ≤ ((⌊y * 10 ^ n + 1 / 2⌋ : ℤ) : ℚ) := by
    exact_mod_cast hfl
  exact (div_le_div_right (by positivity)).mpr hc

theorem roundTo_nonneg (n : ℕ) {x : ℚ} (h : 0 ≤ x) : 0 ≤ roundTo n x := by
  unfold roundTo
  apply div_nonneg _ (by positivity)
  have : (0 : ℤ) ≤ ⌊x * 10 ^ n + 1 / 2⌋ := by
    rw [Int.le_floor]
    push_cast
    positivity
  exact_mod_cast this

theorem defocus_round_bound (x : ℚ) : |roundTo 1 (x / 10) * 10 - x| ≤ 1 / 2 := by
  have h := abs_roundTo_sub 1 (x / 10)
  have h2 : roundTo 1 (x / 10) * 10 - x = (roundTo 1 (x / 10) - x / 10) * 10 := by
    ring
  rw [h2, abs_mul]
  have h3 : |(10 : ℚ)| = 10 := by norm_num
  rw [h3]
  norm_num at h
  linarith

theorem mkLine_length (i : ℕ) (md : CTFMetadata) (t : ℚ) :
    (mkLine i md t).length = 7 := rfl

theorem covers_mkLine (j : ℕ) (md : CTFMetadata) (t : ℚ) (i : ℤ) :
    covers (mkLine j md t) i = true ↔ i = (j : ℤ) := by
  unfold covers mkLine
  simp only [List.getD_cons_zero, List.getD_cons_succ, ratTrunc_natCast,
    Bool.and_eq_true, decide_eq_true_eq]
  omega

theorem dataLines_nil_left (ts : List ℚ) (j : ℕ) : dataLines [] ts j = [] := by
  cases ts <;> rfl

theorem dataLines_nil_right (mds : List CTFMetadata) (j : ℕ) :
    dataLines mds [] j = [] := by
  cases mds <;> rfl

theorem dataLines_mem (mds : List CTFMetadata) (ts : List ℚ) (j : ℕ) (r : List ℚ)
    (h : r ∈ dataLines mds ts j) :
    ∃ (m : ℕ) (md : CTFMetadata) (t : ℚ), j ≤ m ∧ r = mkLine m md t := by
  induction mds generalizing ts j with
  | nil => rw [dataLines_nil_left] at h; exact absurd h (List.not_mem_nil r)
  | cons md mds ih =>
    cases ts with
    | nil => rw [dataLines_nil_right] at h; exact absurd h (List.not_mem_nil r)
    | cons t ts =>
      rcases List.mem_cons.mp h with hr | hr
      · exact ⟨j, md, t, le_refl j, hr⟩
      · obtain ⟨m, md2, t2, hm, hr2⟩ := ih ts (j + 1) hr
        exact ⟨m, md2, t2, by omega, hr2⟩

theorem dataLines_row_len (mds : List CTFMetadata) (ts : List ℚ) (j : ℕ)
    (r : List ℚ) (h : r ∈ dataLines mds ts j) : r.length = 7 := by
  obtain ⟨m, md, t, _, rfl⟩ := dataLines_mem mds ts j r h
  exact mkLine_length m md t

theorem dataLines_length (mds : List CTFMetadata) (ts : List ℚ) (j : ℕ)
    (h : mds.length = ts.length) : (dataLines mds ts j).length = mds.length := by
  induction mds generalizing ts j with
  | nil => rw [dataLines_nil_left]; rfl
  | cons md mds ih =>
    cases ts with
    | nil => exact absurd h (by simp)
    | cons t ts =>
      show (mkLine j md t :: dataLines mds ts (j + 1)).length = mds.length + 1
      rw [List.length_cons, ih ts (j + 1) (by simpa using h)]

theorem dataLines_filter_lt (mds : List CTFMetadata) (ts : List ℚ) (j : ℕ) (i : ℤ)
    (hi : i < (j : ℤ)) :
    (dataLines mds ts j).filter (fun r => covers r i) = [] := by
  rw [List.filter_eq_nil]
  intro r hr
  obtain ⟨m, md, t, hm, rfl⟩ := dataLines_mem mds ts j r hr
  intro hc
  have := (covers_mkLine m md t i).mp hc
  omega

theorem dataLines_filter_eq (mds : List CTFMetadata) (ts : List ℚ) (j k : ℕ)
    (hk : k < mds.length) (hk2 : k < ts.length) :
    (dataLines mds ts j).filter (fun r => covers r ((j : ℤ) + (k : ℤ))) =
      [mkLine (j + k) (mds.get ⟨k, hk⟩) (ts.get ⟨k, hk2⟩)] := by
  induction mds generalizing ts j k with
  | nil => exact absurd hk (by simp)
  | cons md mds ih =>
    cases ts with
    | nil => exact absurd hk2 (by simp)
    | cons t ts =>
      show (mkLine j md t :: dataLines mds ts (j + 1)).filter _ = _
      rw [List.filter_cons]
      cases k with
      | zero =>
        rw [if_pos ((covers_mkLine j md t _).mpr (by push_cast; ring)),
          dataLines_filter_lt mds ts (j + 1) _ (by push_cast; omega)]
        rfl
      | succ k2 =>
        rw [if_neg]
        · have hidx : ((j : ℤ) + ((k2 + 1 : ℕ) : ℤ)) =
              (((j + 1 : ℕ)) : ℤ) + (k2 : ℤ) := by push_cast; ring
          rw [hidx, ih ts (j + 1) k2 (by simpa using hk) (by simpa using hk2)]
          have harg : (j + 1) + k2 = j + (k2 + 1) := by omega
          rw [harg]
          rfl
        · intro hc
          have := (covers_mkLine j md t _).mp hc
          omega

theorem mapE_map {α β γ : Type} (f : β → Except Err γ) (h : α → β) (l : List α) :
    mapE f (l.map h) = mapE (fun x => f (h x)) l := by
  induction l with
  | nil => rfl
  | cons x xs ih =>
    show mapE f (h x :: xs.map h) = _
    rw [mapE, mapE, ih]

theorem refactor1_dataLines (mds : List CTFMetadata) (ts : List ℚ)
    (hne : mds ≠ []) (hne2 : ts ≠ []) :
    ∃ d, refactor1 (dataLines mds ts 1) = Except.ok d ∧
      ∀ (k : ℕ) (hk : k < mds.length) (hk2 : k < ts.length),
        d.1 ((1 : ℤ) + (k : ℤ)) =
          [roundTo 1 ((mds.get ⟨k, hk⟩).defocus_u / 10) * 10] ∧
        d.2.1 ((1 : ℤ) + (k : ℤ)) =
          [roundTo 1 ((mds.get ⟨k, hk⟩).defocus_v / 10) * 10] ∧
        d.2.2 ((1 : ℤ) + (k : ℤ)) = [roundTo 2 (mds.get ⟨k, hk⟩).defocus_angle] := by
  obtain ⟨d, hfold, h1, h2, h3⟩ := foldE_step1 (dataLines mds ts 1)
    (fun r hr => le_of_eq (dataLines_row_len mds ts 1 r hr).symm)
    (emptySeries, emptySeries, emptySeries)
  refine ⟨d, ?_, ?_⟩
  · obtain ⟨md, mds2, rfl⟩ := List.exists_cons_of_ne_nil hne
    obtain ⟨t, ts2, rfl⟩ := List.exists_cons_of_ne_nil hne2
    unfold refactor1
    rw [show pyIdx (dataLines (md :: mds2) (t :: ts2) 1) 0 =
        Except.ok (mkLine 1 md t) from pyIdx_ok _ 0 (by
          show 0 < (mkLine 1 md t :: dataLines mds2 ts2 2).length
          simp),
      ok_bind, if_pos (mkLine_length 1 md t)]
    exact hfold
  · intro k hk hk2
    have hf := dataLines_filter_eq mds ts 1 k hk hk2
    rw [Nat.cast_one] at hf
    refine ⟨?_, ?_, ?_⟩
    · rw [h1, hf]
      simp [emptySeries, mkLine]
    · rw [h2, hf]
      simp [emptySeries, mkLine]
    · rw [h3, hf]
      simp [emptySeries, mkLine]

theorem reduceImage_roundtrip (md : CTFMetadata)
    (h1 : md.defocus_v ≤ md.defocus_u) (h2 : 0 ≤ md.defocus_angle)
    (h3 : md.defocus_angle < 35999 / 200) :
    reduceImage [roundTo 1 (md.defocus_u / 10) * 10]
      [roundTo 1 (md.defocus_v / 10) * 10] [roundTo 2 md.defocus_angle] [] =
      Except.ok ⟨roundTo 1 (md.defocus_u / 10) * 10,
        roundTo 1 (md.defocus_v / 10) * 10, roundTo 2 md.defocus_angle, 0, -1⟩ := by
  rw [reduceImage_single]
  have hd : md.defocus_v / 10 ≤ md.defocus_u / 10 := by linarith
  have hb : roundTo 1 (md.defocus_v / 10) * 10 ≤ roundTo 1 (md.defocus_u / 10) * 10 := by
    have := roundTo_mono 1 hd
    linarith
  have hc0 : 0 ≤ roundTo 2 md.defocus_angle := roundTo_nonneg 2 h2
  have hc1 : roundTo 2 md.defocus_angle < 180 := by
    have := roundTo_le 2 md.defocus_angle
    norm_num at this
    linarith
  rw [standarize_id _ _ _ (not_lt.mpr hb) (not_le.mpr hc1) (not_lt.mpr hc0)]

theorem get_flag_cons (l0 l1 : List ℚ) (rest : List (List ℚ)) :
    get_defocus_file_flag (l0 :: l1 :: rest) =
      if l1.length = 5 then Except.ok 0
      else (pyIdx l0 0).bind fun t => Except.ok (ratTrunc t) := rfl

theorem table_cons (l0 l1 : List ℚ) (rest : List (List ℚ)) :
    defocus_file_to_table (l0 :: l1 :: rest) =
      if l1.length = 5 then (pyPop l0).bind fun v => Except.ok (v :: l1 :: rest)
      else Except.ok (l1 :: rest) := rfl

/-- C4 amended: for standardized per-image inputs (defocus_v ≤ defocus_u,
0 ≤ defocus_angle < 179.995), writing the reverse defocus file and
re-parsing it through the forward conversion reproduces every image's
values with error at most 0.5 Å for the defocus values (the file stores
defocus in nm rounded to ONE decimal place) and at most 0.005 degrees for
the angle (stored rounded to TWO decimal places). -/
theorem c4_roundtrip (mds : List CTFMetadata) (tilts : List ℚ)
    (hlen : mds.length = tilts.length) (hne : mds ≠ [])
    (hstd : ∀ md ∈ mds, md.defocus_v ≤ md.defocus_u ∧
      0 ≤ md.defocus_angle ∧ md.defocus_angle < 35999 / 200) :
    ∃ L out, cets_to_imod mds tilts = Except.ok L ∧
      parse_defocus_file L mds.length = Except.ok out ∧
      out.length = mds.length ∧
      ∀ (k : ℕ) (hko : k < out.length) (hkm : k < mds.length),
        |(out.get ⟨k, hko⟩).defocus_u - (mds.get ⟨k, hkm⟩).defocus_u| ≤ 1 / 2 ∧
        |(out.get ⟨k, hko⟩).defocus_v - (mds.get ⟨k, hkm⟩).defocus_v| ≤ 1 / 2 ∧
        |(out.get ⟨k, hko⟩).defocus_angle - (mds.get ⟨k, hkm⟩).defocus_angle|
          ≤ 1 / 200 ∧
        (out.get ⟨k, hko⟩).phase_shift = 0 := by
  have hts_ne : tilts ≠ [] := by
    intro h
    rw [h] at hlen
    exact hne (List.length_eq_zero.mp (by simpa using hlen))
  obtain ⟨dd, href, hchar⟩ := refactor1_dataLines mds tilts hne hts_ne
  obtain ⟨md0, mds2, hmds⟩ := List.exists_cons_of_ne_nil hne
  obtain ⟨t0, ts2, hts⟩ := List.exists_cons_of_ne_nil hts_ne
  have hdl : dataLines mds tilts 1 = mkLine 1 md0 t0 :: dataLines mds2 ts2 2 := by
    rw [hmds, hts]
    rfl
  have hLdef : cets_to_imod mds tilts =
      Except.ok (([1, 0, 0, 0, 0, 3] : List ℚ) :: dataLines mds tilts 1) := by
    unfold cets_to_imod
    rw [if_neg (by omega)]
  have hflag : get_defocus_file_flag
      (([1, 0, 0, 0, 0, 3] : List ℚ) :: dataLines mds tilts 1) = Except.ok 1 := by
    rw [hdl, get_flag_cons, if_neg (by rw [mkLine_length]; decide),
      show pyIdx ([1, 0, 0, 0, 0, 3] : List ℚ) 0 = Except.ok 1 from rfl, ok_bind]
    decide
  have htab : defocus_file_to_table
      (([1, 0, 0, 0, 0, 3] : List ℚ) :: dataLines mds tilts 1) =
      Except.ok (dataLines mds tilts 1) := by
    rw [hdl, table_cons, if_neg (by rw [mkLine_length]; decide)]
  have hparse1 : parse_defocus_file
      (([1, 0, 0, 0, 0, 3] : List ℚ) :: dataLines mds tilts 1) mds.length =
      mapE (fun i => reduceImage (dd.1 i) (dd.2.1 i) (dd.2.2 i) (emptySeries i))
        (idxList mds.length) := by
    unfold parse_defocus_file
    rw [hflag, ok_bind]
    unfold loadQuad
    rw [if_neg (by decide), if_pos rfl, htab, ok_bind, href, ok_bind, ok_bind]
  have hgetD : ∀ (k : ℕ) (hk : k < mds.length),
      mds.getD k ⟨0, 0, 0, 0, -1⟩ = mds.get ⟨k, hk⟩ := by
    intro k hk
    rw [List.getD_eq_get?, List.get?_eq_get hk]
    rfl
  have hmap : mapE (fun i => reduceImage (dd.1 i) (dd.2.1 i) (dd.2.2 i)
      (emptySeries i)) (idxList mds.length) =
      Except.ok ((List.range mds.length).map (fun k =>
        (⟨roundTo 1 ((mds.getD k ⟨0, 0, 0, 0, -1⟩).defocus_u / 10) * 10,
          roundTo 1 ((mds.getD k ⟨0, 0, 0, 0, -1⟩).defocus_v / 10) * 10,
          roundTo 2 (mds.getD k ⟨0, 0, 0, 0, -1⟩).defocus_angle, 0, -1⟩ :
          CTFMetadata))) := by
    unfold idxList
    rw [mapE_map]
    apply mapE_ok_of
    intro k hk
    have hkm : k < mds.length := List.mem_range.mp hk
    have hkt : k < tilts.length := by omega
    obtain ⟨hc1, hc2, hc3⟩ := hchar k hkm hkt
    rw [show ((k : ℤ) + 1) = (1 + (k : ℤ)) by ring, hc1, hc2, hc3]
    show reduceImage _ _ _ [] = _
    obtain ⟨hs1, hs2, hs3⟩ := hstd (mds.get ⟨k, hkm⟩) (List.get_mem mds k hkm)
    rw [hgetD k hkm]
    exact reduceImage_roundtrip (mds.get ⟨k, hkm⟩) hs1 hs2 hs3
  refine ⟨([1, 0, 0, 0, 0, 3] : List ℚ) :: dataLines mds tilts 1,
    (List.range mds.length).map _, hLdef, by rw [hparse1, hmap], by simp, ?_⟩
  intro k hko hkm
  have hget : ((List.range mds.length).map (fun k =>
      (⟨roundTo 1 ((mds.getD k ⟨0, 0, 0, 0, -1⟩).defocus_u / 10) * 10,
        roundTo 1 ((mds.getD k ⟨0, 0, 0, 0, -1⟩).defocus_v / 10) * 10,
        roundTo 2 (mds.getD k ⟨0, 0, 0, 0, -1⟩).defocus_angle, 0, -1⟩ :
        CTFMetadata))).get ⟨k, hko⟩ =
      ⟨roundTo 1 ((mds.get ⟨k, hkm⟩).defocus_u / 10) * 10,
        roundTo 1 ((mds.get ⟨k, hkm⟩).defocus_v / 10) * 10,
        roundTo 2 (mds.get ⟨k, hkm⟩).defocus_angle, 0, -1⟩ := by
    rw [List.get_map]
    rw [show (List.range mds.length).get ⟨k, by simpa using hko⟩ = k from
      List.get_range k _, hgetD k hkm]
  rw [hget]
  have ha := abs_roundTo_sub 2 (mds.get ⟨k, hkm⟩).defocus_angle
  norm_num at ha
  exact ⟨defocus_round_bound _, defocus_round_bound _, ha, rfl⟩

/-- C4 counterexample: the reverse path writes defocus in nm with ONE
decimal place (`%.1f`), not two: a per-image defocus of 125.04 Å round
trips to 125.0 Å, an error of 0.04 Å, beyond what rounding the defocus to
2 decimal places would allow. -/
theorem c4_counterexample :
    cets_to_imod [(⟨125.04, 125.04, 0, 0, -1⟩ : CTFMetadata)] [(0 : ℚ)] =
      Except.ok [[1, 0, 0, 0, 0, 3], [1, 1, 0, 0, 12.5, 12.5, 0]] ∧
    parse_defocus_file
      [[(1 : ℚ), 0, 0, 0, 0, 3], [(1 : ℚ), 1, 0, 0, 12.5, 12.5, 0]] 1 =
      Except.ok [⟨125, 125, 0, 0, -1⟩] ∧
    ¬ (|(125 : ℚ) - 125.04| ≤ 1 / 100) := ⟨by decide, by decide, by decide⟩

/-- Witness for C4's amended theorem at the single image (125.04, 125.04, 0)
with tilt angle 0. -/
theorem c4_witness :
    ∃ L out,
      cets_to_imod [(⟨125.04, 125.04, 0, 0, -1⟩ : CTFMetadata)] [(0 : ℚ)] =
        Except.ok L ∧
      parse_defocus_file L
        [(⟨125.04, 125.04, 0, 0, -1⟩ : CTFMetadata)].length = Except.ok out ∧
      out.length = [(⟨125.04, 125.04, 0, 0, -1⟩ : CTFMetadata)].length ∧
      ∀ (k : ℕ) (hko : k < out.length)
        (hkm : k < [(⟨125.04, 125.04, 0, 0, -1⟩ : CTFMetadata)].length),
        |(out.get ⟨k, hko⟩).defocus_u -
          ([(⟨125.04, 125.04, 0, 0, -1⟩ : CTFMetadata)].get ⟨k, hkm⟩).defocus_u|
          ≤ 1 / 2 ∧
        |(out.get ⟨k, hko⟩).defocus_v -
          ([(⟨125.04, 125.04, 0, 0, -1⟩ : CTFMetadata)].get ⟨k, hkm⟩).defocus_v|
          ≤ 1 / 2 ∧
        |(out.get ⟨k, hko⟩).defocus_angle -
          ([(⟨125.04, 125.04, 0, 0, -1⟩ : CTFMetadata)].get
            ⟨k, hkm⟩).defocus_angle| ≤ 1 / 200 ∧
        (out.get ⟨k, hko⟩).phase_shift = 0 :=
  c4_roundtrip [⟨125.04, 125.04, 0, 0, -1⟩] [0] rfl (by decide)
    (by
      intro md hmd
      rw [List.mem_singleton] at hmd
      subst hmd
      exact ⟨le_refl _, le_refl _, by norm_num⟩)
